import Mathlib

/-!
# DMS Tool — approval workflow verification

Shallow embedding of the approval-workflow logic of the `dms-tool`
repository, together with theorems settling the specification claims.

Two groups of definitions appear below:

* Definitions translated from the frontend sources
  (`frontend/src/hooks/useApprovals.js`,
  `frontend/src/components/modals/CreateAppovalModal.jsx`,
  `frontend/src/pages/ApprovalDashboard.jsx`,
  `frontend/src/components/approvals/ApprovalCard.jsx`,
  `frontend/src/utils/dateUtils.js`).
* Definitions of the backend decision processor, which is not part of the
  source tree; those are modelled from the specification (§4.2) and carry a
  doc comment starting with `Modelled from the spec:`.
-/

namespace DMS

/-- Per-recipient decision state (spec §3, `Recipient.status`). -/
inductive RecipientStatus
  | pending
  | approved
  | rejected
  deriving DecidableEq, Repr

/-- Aggregate request state (spec §3, `ApprovalRequest.status`). -/
inductive RequestStatus
  | pending
  | approved
  | rejected
  | expired
  | cancelled
  deriving DecidableEq, Repr

/-- The two aggregation policies (spec §3, `approval_type ∈ {ALL, ANY}`). -/
inductive ApprovalType
  | all
  | any
  deriving DecidableEq, Repr

/-- A decision submitted through a token (spec §4.2, `decision ∈ {approved, rejected}`). -/
inductive Decision
  | approved
  | rejected
  deriving DecidableEq, Repr

/-- Error taxonomy of the decision processor (spec §7); only the kinds the
claims mention are modelled. -/
inductive DmsError
  | tokenInvalid
  | requestClosed
  deriving DecidableEq, Repr

/-- The recipient status a decision resolves to. -/
def decisionStatus : Decision → RecipientStatus
  | .approved => .approved
  | .rejected => .rejected

/-- Modelled from the spec: the aggregation rule of §4.2 (the backend decision
processor is absent from the source tree).  For `ALL`: the request becomes
REJECTED as soon as any recipient is REJECTED, APPROVED iff every recipient is
APPROVED, otherwise stays PENDING.  For `ANY`: symmetric with the roles of
APPROVED and REJECTED swapped. -/
def aggregateStatus (t : ApprovalType) (rs : List RecipientStatus) : RequestStatus :=
  match t with
  | .all =>
    if rs.any (· == .rejected) then .rejected
    else if rs.all (· == .approved) then .approved
    else .pending
  | .any =>
    if rs.any (· == .approved) then .approved
    else if rs.all (· == .rejected) then .rejected
    else .pending

/-- An invited approver (spec §3, `Recipient`); identity fields that play no
role in decision processing (id, name, email, responded_at) are kept only as
far as the claims need them. -/
structure Recipient where
  approval_token : String
  recipient_email : String
  status : RecipientStatus
  comments : Option String
  responded_at : Option Nat
  deriving DecidableEq, Repr

/-- An approval request (spec §3, `ApprovalRequest`), restricted to the fields
the decision processor reads or writes. -/
structure Request where
  approval_type : ApprovalType
  status : RequestStatus
  recipients : List Recipient
  completed_at : Option Nat
  deriving DecidableEq, Repr

/-- Apply a decision to the first recipient carrying the given token
(spec §4.2, effect step 1: set status, comments and responded_at). -/
def setDecision (token : String) (d : Decision) (comments : Option String) (now : Nat) :
    List Recipient → List Recipient
  | [] => []
  | r :: rest =>
    if r.approval_token == token then
      { r with status := decisionStatus d, comments := comments,
               responded_at := some now } :: rest
    else
      r :: setDecision token d comments now rest

/-- Modelled from the spec: the decision processor `submitDecision` of §4.2
(the backend implementation is absent from the source tree).  The token is
resolved to a recipient; an unknown token or a token whose recipient already
left PENDING fails with `TokenInvalidError` (the token check precedes the
request-status check, matching §8: submitting twice on the same token yields
`TokenInvalidError` the second time); a non-PENDING parent request fails with
`RequestClosedError`.  On success the recipient is updated, the aggregate
status is recomputed, and `completed_at` is stamped when the request becomes
terminal.  Token invalidation after resolution (§4.2 step 3) is observable
only through these two errors and needs no extra state. -/
def submitDecision (req : Request) (token : String) (d : Decision)
    (comments : Option String) (now : Nat) : Except DmsError Request :=
  match req.recipients.find? (·.approval_token == token) with
  | none => .error .tokenInvalid
  | some r =>
    if r.status ≠ .pending then .error .tokenInvalid
    else if req.status ≠ .pending then .error .requestClosed
    else
      let rs := setDecision token d comments now req.recipients
      let newStatus := aggregateStatus req.approval_type (rs.map (·.status))
      .ok { req with
              recipients := rs
              status := newStatus
              completed_at := if newStatus ≠ .pending then some now else req.completed_at }

theorem find_setDecision {token : String} {rs : List Recipient} {r : Recipient}
    (h : rs.find? (·.approval_token == token) = some r)
    (d : Decision) (comments : Option String) (now : Nat) :
    (setDecision token d comments now rs).find? (·.approval_token == token) =
      some { r with status := decisionStatus d, comments := comments,
                    responded_at := some now } := by
  induction rs with
  | nil => simp [List.find?] at h
  | cons a rest ih =>
    by_cases ha : (a.approval_token == token) = true
    · simp only [List.find?_cons, ha] at h
      cases h
      simp [setDecision, ha, List.find?_cons]
    · rw [Bool.not_eq_true] at ha
      simp only [List.find?_cons, ha] at h
      simp only [setDecision, ha, Bool.false_eq_true, if_false, List.find?_cons]
      exact ih h

theorem decisionStatus_ne_pending (d : Decision) : decisionStatus d ≠ .pending := by
  cases d <;> simp [decisionStatus]

/-- C1: For an ALL request the aggregate status is REJECTED exactly when some
recipient is REJECTED (however many are still PENDING), APPROVED exactly when
every recipient is APPROVED, and PENDING otherwise. -/
theorem all_aggregation_characterization (rs : List RecipientStatus) :
    (aggregateStatus .all rs = .rejected ↔ ∃ r ∈ rs, r = .rejected) ∧
    (aggregateStatus .all rs = .approved ↔ ∀ r ∈ rs, r = .approved) ∧
    (aggregateStatus .all rs = .pending ↔
      (¬ ∃ r ∈ rs, r = .rejected) ∧ ¬ ∀ r ∈ rs, r = .approved) := by
  have hne : ∀ (_ : ∃ r ∈ rs, r = RecipientStatus.rejected)
      (_ : ∀ r ∈ rs, r = RecipientStatus.approved), False := by
    rintro ⟨r, hr, rfl⟩ h2
    exact RecipientStatus.noConfusion (h2 _ hr)
  simp only [aggregateStatus, List.any_eq_true, List.all_eq_true, beq_iff_eq]
  split_ifs with h1 h2
  · exact ⟨⟨fun _ => h1, fun _ => rfl⟩,
           ⟨fun hc => hc.elim, fun h2 => (hne h1 h2).elim⟩,
           ⟨fun hc => hc.elim, fun hp => (hp.1 h1).elim⟩⟩
  · exact ⟨⟨fun hc => hc.elim, fun hx => (h1 hx).elim⟩,
           ⟨fun _ => h2, fun _ => rfl⟩,
           ⟨fun hc => hc.elim, fun hp => (hp.2 h2).elim⟩⟩
  · exact ⟨⟨fun hc => hc.elim, fun hx => (h1 hx).elim⟩,
           ⟨fun hc => hc.elim, fun hx => (h2 hx).elim⟩,
           ⟨fun _ => ⟨h1, h2⟩, fun _ => rfl⟩⟩

theorem all_aggregation_characterization_witness :
    aggregateStatus .all [.rejected, .pending] = .rejected ∧
    aggregateStatus .all [.approved, .approved] = .approved :=
  ⟨(all_aggregation_characterization [.rejected, .pending]).1.mpr (by decide),
   (all_aggregation_characterization [.approved, .approved]).2.1.mpr (by decide)⟩

/-- C2: Once a decision has been successfully resolved through a token, a
second submission with the same token fails with `TokenInvalidError`; the
processor returns an error, so no recipient or request state changes. -/
theorem token_single_use (req req' : Request) (token : String) (d : Decision)
    (comments : Option String) (now : Nat)
    (h : submitDecision req token d comments now = .ok req') :
    ∀ (d' : Decision) (comments' : Option String) (now' : Nat),
      submitDecision req' token d' comments' now' = .error .tokenInvalid := by
  intro d' c' n'
  cases hf : req.recipients.find? (·.approval_token == token) with
  | none => simp [submitDecision, hf] at h
  | some r =>
    simp only [submitDecision, hf] at h
    split_ifs at h with h1 h2 h3
    all_goals
      simp only [Except.ok.injEq] at h
      subst h
      simp [submitDecision, find_setDecision hf, decisionStatus_ne_pending]

/-- Concrete single-recipient ALL request, used to witness `token_single_use`. -/
def reqW : Request :=
  { approval_type := .all
    status := .pending
    recipients := [{ approval_token := "tok-1", recipient_email := "a@example.com",
                     status := .pending, comments := none, responded_at := none }]
    completed_at := none }

/-- The snapshot produced by approving `reqW`'s only recipient at time 5. -/
def reqW' : Request :=
  { approval_type := .all
    status := .approved
    recipients := [{ approval_token := "tok-1", recipient_email := "a@example.com",
                     status := .approved, comments := none, responded_at := some 5 }]
    completed_at := some 5 }

theorem token_single_use_witness :
    submitDecision reqW "tok-1" .approved none 5 = .ok reqW' ∧
    submitDecision reqW' "tok-1" .rejected none 6 = .error .tokenInvalid :=
  ⟨by rfl,
   token_single_use reqW reqW' "tok-1" .approved none 5 (by rfl) .rejected none 6⟩

/-! ## The two token-decision request payloads (`frontend/src/hooks/useApprovals.js`) -/

/-- The JSON body both decision endpoints send: a `decision` string and a
`comments` value that is either a JSON string (`some`) or JSON `null`/absent
(`none`). -/
structure DecisionPayload where
  decision : String
  comments : Option String
  deriving DecidableEq, Repr

/-- JS `comments || ''` (useApprovals.js line 53): `null`/`undefined` and the
empty string are falsy and yield `''`; any other string is kept. -/
def jsOrElseEmpty : Option String → String
  | none => ""
  | some s => s

/-- Body built by `approvalsApi.approveByToken` for
`POST /approvals/decide/{token}` (useApprovals.js lines 50–56):
`{ decision: approved ? 'approved' : 'rejected', comments: comments || '' }`. -/
def approveByTokenPayload (approved : Bool) (comments : Option String) : DecisionPayload :=
  { decision := if approved then "approved" else "rejected"
    comments := some (jsOrElseEmpty comments) }

/-- JS `String.prototype.trim`: strip leading and trailing whitespace
(`Char.isWhitespace` stands in for the JS WhiteSpace/LineTerminator set; they
agree on the ASCII inputs used below). -/
def jsTrim (s : String) : String :=
  String.mk (((s.data.dropWhile Char.isWhitespace).reverse.dropWhile Char.isWhitespace).reverse)

/-- Body built by `useApprovalAction.submitDecision` for
`POST /approvals/submit/{token}` (useApprovals.js lines 261–264):
`{ decision: decisionType, comments: comments?.trim() || null }`. -/
def submitDecisionPayload (decisionType : String) (comments : Option String) : DecisionPayload :=
  { decision := decisionType
    comments :=
      match comments with
      | none => none
      | some s => if jsTrim s = "" then none else some (jsTrim s) }

/-- C3 counterexample: on the identical input (decision approved, comments the
empty string) the decide-path sends `comments: ""` while the submit-path sends
`comments: null`, so the two payloads differ. -/
theorem decide_submit_payload_mismatch :
    approveByTokenPayload true (some "") ≠ submitDecisionPayload "approved" (some "") := by
  decide

/-- C3 (amended): the two submission paths always send the same decision
value, and their payloads fully coincide exactly on comments that are
non-empty strings free of leading/trailing whitespace; on every other
comments value — missing, empty, blank or whitespace-padded — they differ
(decide-path sends the raw string or `''`, submit-path sends the trimmed
string or `null`). -/
theorem decide_submit_payload_agreement (approved : Bool) (c : Option String) :
    (approveByTokenPayload approved c).decision =
      (submitDecisionPayload (if approved then "approved" else "rejected") c).decision ∧
    (approveByTokenPayload approved c =
        submitDecisionPayload (if approved then "approved" else "rejected") c ↔
      ∃ s, c = some s ∧ jsTrim s = s ∧ s ≠ "") := by
  refine ⟨rfl, ?_⟩
  cases c with
  | none =>
    constructor
    · intro h
      have hc := congrArg DecisionPayload.comments h
      simp [approveByTokenPayload, submitDecisionPayload, jsOrElseEmpty] at hc
    · rintro ⟨s, hs, -⟩
      exact Option.noConfusion hs
  | some s =>
    by_cases ht : jsTrim s = ""
    · constructor
      · intro h
        have hc := congrArg DecisionPayload.comments h
        simp [approveByTokenPayload, submitDecisionPayload, jsOrElseEmpty, ht] at hc
      · rintro ⟨s', hs', htrim, hne⟩
        injection hs' with hs'
        subst hs'
        exact absurd (htrim.symm.trans ht) hne
    · constructor
      · intro h
        have hc := congrArg DecisionPayload.comments h
        simp only [approveByTokenPayload, submitDecisionPayload, jsOrElseEmpty,
          if_neg ht, Option.some.injEq] at hc
        refine ⟨s, rfl, hc.symm, ?_⟩
        intro he
        subst he
        exact ht rfl
      · rintro ⟨s', hs', htrim, hne⟩
        injection hs' with hs'
        subst hs'
        simp only [approveByTokenPayload, submitDecisionPayload, jsOrElseEmpty,
          htrim, if_neg hne]

theorem decide_submit_payload_agreement_witness :
    approveByTokenPayload true (some "ok") = submitDecisionPayload "approved" (some "ok") := by
  have h := (decide_submit_payload_agreement true (some "ok")).2.mpr
    ⟨"ok", rfl, by decide, by decide⟩
  simpa using h

/-! ## Approval-creation validation schema
(`frontend/src/components/modals/CreateAppovalModal.jsx`, `approvalSchema`) -/

/-- One entry of the creation form's recipients array. -/
structure RecipientInput where
  recipient_email : String
  recipient_name : String
  deriving DecidableEq, Repr

/-- The creation form's input object, as validated by the Zod schema. -/
structure ApprovalInput where
  title : String
  description : Option String
  document_id : String
  approval_type : String
  recipients : List RecipientInput
  requester_comments : Option String
  deriving DecidableEq, Repr

/-- The Zod schema `approvalSchema` (CreateAppovalModal.jsx lines 54–73),
parameterized by the Zod library's email predicate `isEmail` (library code,
not part of this repository).  JS string lengths are UTF-16 code-unit counts;
`String.length` agrees on the ASCII inputs used below. -/
def approvalSchemaAccepts (isEmail : String → Bool) (x : ApprovalInput) : Bool :=
  decide (1 ≤ x.title.length) && decide (x.title.length ≤ 200) &&
  (match x.description with
   | none => true
   | some d => decide (d.length ≤ 1000)) &&
  decide (1 ≤ x.document_id.length) &&
  (x.approval_type == "all" || x.approval_type == "any") &&
  decide (1 ≤ x.recipients.length) &&
  x.recipients.all (fun r => isEmail r.recipient_email && decide (1 ≤ r.recipient_name.length)) &&
  (match x.requester_comments with
   | none => true
   | some c => decide (c.length ≤ 500))

/-- The claim's notion of well-formed creation input, written from C4's words:
non-empty title of at most 200 characters, a selected document, approval_type
in {all, any}, and a non-empty recipients list of well-formed emails and
non-empty names. -/
def claimWellFormed (isEmail : String → Bool) (x : ApprovalInput) : Bool :=
  decide (1 ≤ x.title.length) && decide (x.title.length ≤ 200) &&
  decide (1 ≤ x.document_id.length) &&
  (x.approval_type == "all" || x.approval_type == "any") &&
  decide (1 ≤ x.recipients.length) &&
  x.recipients.all (fun r => isEmail r.recipient_email && decide (1 ≤ r.recipient_name.length))

/-- C4's well-formedness amended with the two bounds the schema additionally
enforces: description at most 1000 characters and requester_comments at most
500 characters, when provided. -/
def claimWellFormedAmended (isEmail : String → Bool) (x : ApprovalInput) : Bool :=
  claimWellFormed isEmail x &&
  (match x.description with
   | none => true
   | some d => decide (d.length ≤ 1000)) &&
  (match x.requester_comments with
   | none => true
   | some c => decide (c.length ≤ 500))

/-- An input that is well-formed in the claim's sense but carries a
1001-character description. -/
def longDescriptionInput : ApprovalInput :=
  { title := "t"
    description := some (String.mk (List.replicate 1001 'a'))
    document_id := "d"
    approval_type := "all"
    recipients := [{ recipient_email := "a@b.com", recipient_name := "n" }]
    requester_comments := none }

set_option maxRecDepth 8000 in
/-- C4 counterexample: an input satisfying every condition the claim lists is
nevertheless rejected by the schema, because its description exceeds 1000
characters; so acceptance is not equivalent to the claim's well-formedness. -/
theorem approval_schema_iff_refuted :
    claimWellFormed (fun _ => true) longDescriptionInput = true ∧
    approvalSchemaAccepts (fun _ => true) longDescriptionInput = false := by
  constructor <;> decide

/-- C4 (amended): the schema accepts an input if and only if it is well-formed
in the claim's sense and, additionally, the optional description has at most
1000 characters and the optional requester comments at most 500. -/
theorem approval_schema_iff_amended (isEmail : String → Bool) (x : ApprovalInput) :
    approvalSchemaAccepts isEmail x = claimWellFormedAmended isEmail x := by
  obtain ⟨title, desc, doc, ty, recips, rc⟩ := x
  simp only [approvalSchemaAccepts, claimWellFormedAmended, claimWellFormed]
  cases desc <;> cases rc <;>
    simp [Bool.and_assoc, Bool.and_comm, Bool.and_left_comm]

/-! ## Listing-error handling (`frontend/src/hooks/useApprovals.js`) -/

/-- An HTTP failure as Axios exposes it: `error.response?.status` (`none` when
no response arrived). -/
structure HttpError where
  status : Option Nat
  deriving DecidableEq, Repr

/-- Response handling of `approvalsApi.getApprovals` (useApprovals.js lines
24–34): data passes through, a 404 error is converted to a successful empty
list (`return []`), every other error is rethrown. -/
def getApprovalsHandle (result : Except HttpError (List α)) : Except HttpError (List α) :=
  match result with
  | .ok data => .ok data
  | .error e => if e.status == some 404 then .ok [] else .error e

/-- Response handling of the `useApprovalsForMe` query function
(useApprovals.js lines 224–236): identical 404-to-empty conversion. -/
def forMeHandle (result : Except HttpError (List α)) : Except HttpError (List α) :=
  match result with
  | .ok data => .ok data
  | .error e => if e.status == some 404 then .ok [] else .error e

/-- C5 counterexample: a 404 (NotFound) failure of either listing operation is
converted into a successful empty result instead of propagating. -/
theorem notFound_swallowed :
    getApprovalsHandle (α := Unit) (.error { status := some 404 }) = .ok [] ∧
    forMeHandle (α := Unit) (.error { status := some 404 }) = .ok [] :=
  ⟨rfl, rfl⟩

/-- C5 (amended): every error except an HTTP 404 surfaces unchanged to the
caller of the listing operations; a 404 is the one silently swallowed case,
yielding a successful empty list; successful data passes through unchanged. -/
theorem error_propagation_amended {α : Type} (e : HttpError) :
    (e.status ≠ some 404 →
      getApprovalsHandle (α := α) (.error e) = .error e ∧
      forMeHandle (α := α) (.error e) = .error e) ∧
    (e.status = some 404 →
      getApprovalsHandle (α := α) (.error e) = .ok [] ∧
      forMeHandle (α := α) (.error e) = .ok []) ∧
    ∀ data : List α,
      getApprovalsHandle (.ok data) = .ok data ∧ forMeHandle (.ok data) = .ok data := by
  refine ⟨fun h => ?_, fun h => ?_, fun _ => ⟨rfl, rfl⟩⟩
  · have hb : (e.status == some 404) = false := by
      simpa [beq_iff_eq] using h
    simp [getApprovalsHandle, forMeHandle, hb]
  · simp [getApprovalsHandle, forMeHandle, h]

theorem error_propagation_amended_witness :
    getApprovalsHandle (α := Unit) (.error { status := some 500 }) =
      .error { status := some 500 } :=
  ((error_propagation_amended (α := Unit) { status := some 500 }).1 (by decide)).1

/-! ## Query construction of the list-my-requests call
(`frontend/src/hooks/useApprovals.js` lines 9–22) -/

/-- The URLSearchParams built by `approvalsApi.getApprovals`: `status_filter`
only for a truthy status different from `'all'` (JS truthiness: the empty
string is falsy), then always `limit=50` and `offset=0`. -/
def getApprovalsParams : Option String → List (String × String)
  | none => [("limit", "50"), ("offset", "0")]
  | some s =>
    (if s ≠ "" ∧ s ≠ "all" then [("status_filter", s)] else []) ++
      [("limit", "50"), ("offset", "0")]

/-- C9: every list-my-requests call carries `limit=50` and `offset=0`, and a
`status_filter` entry appears exactly when a non-empty status other than
`'all'` was given — so the listing never requests more than the first 50
created requests. -/
theorem getApprovals_pagination (status : Option String) :
    ("limit", "50") ∈ getApprovalsParams status ∧
    ("offset", "0") ∈ getApprovalsParams status ∧
    ∀ s, ("status_filter", s) ∈ getApprovalsParams status ↔
      status = some s ∧ s ≠ "" ∧ s ≠ "all" := by
  have hne1 : ("status_filter" : String) ≠ "limit" := by decide
  have hne2 : ("status_filter" : String) ≠ "offset" := by decide
  have hsf_ne_limit : ∀ s : String, ("status_filter", s) ≠ ("limit", "50") := fun s h =>
    hne1 (congrArg Prod.fst h)
  have hsf_ne_offset : ∀ s : String, ("status_filter", s) ≠ ("offset", "0") := fun s h =>
    hne2 (congrArg Prod.fst h)
  cases status with
  | none =>
    refine ⟨by simp [getApprovalsParams], by simp [getApprovalsParams], fun s => ?_⟩
    simp only [getApprovalsParams, List.mem_cons, List.not_mem_nil, or_false]
    constructor
    · rintro (h | h)
      · exact absurd h (hsf_ne_limit s)
      · exact absurd h (hsf_ne_offset s)
    · rintro ⟨h, -⟩
      exact Option.noConfusion h
  | some s₀ =>
    by_cases hc : s₀ ≠ "" ∧ s₀ ≠ "all"
    · refine ⟨by simp [getApprovalsParams, if_pos hc], by simp [getApprovalsParams, if_pos hc],
        fun s => ?_⟩
      simp only [getApprovalsParams, if_pos hc, List.cons_append, List.nil_append,
        List.mem_cons, List.not_mem_nil, or_false]
      constructor
      · rintro (h | h | h)
        · have hs : s = s₀ := congrArg Prod.snd h
          subst hs
          exact ⟨rfl, hc.1, hc.2⟩
        · exact absurd h (hsf_ne_limit s)
        · exact absurd h (hsf_ne_offset s)
      · intro hr
        obtain ⟨h, -⟩ := hr
        injection h with h
        subst h
        exact Or.inl rfl
    · refine ⟨by simp [getApprovalsParams, if_neg hc], by simp [getApprovalsParams, if_neg hc],
        fun s => ?_⟩
      simp only [getApprovalsParams, if_neg hc, List.nil_append, List.mem_cons,
        List.not_mem_nil, or_false]
      constructor
      · rintro (h | h)
        · exact absurd h (hsf_ne_limit s)
        · exact absurd h (hsf_ne_offset s)
      · rintro ⟨h, hne, hall⟩
        injection h with h
        subst h
        exact absurd ⟨hne, hall⟩ hc

theorem getApprovals_pagination_witness :
    ("limit", "50") ∈ getApprovalsParams (some "pending") :=
  (getApprovals_pagination (some "pending")).1

/-! ## ApprovalCard progress (`src/unnamed/part_014`, `getApprovalProgress`) -/

/-- A recipient as ApprovalCard reads it (only the status field matters). -/
structure CardRecipient where
  status : String
  deriving DecidableEq, Repr

/-- The progress object `{ approved, total, percentage }` ApprovalCard builds. -/
structure Progress where
  approved : Nat
  total : Nat
  percentage : ℚ
  deriving DecidableEq, Repr

/-- `getApprovalProgress` (ApprovalCard.jsx lines 37–41):
`total = approval.recipients?.length || 0`,
`approved = approval.recipients?.filter(r => r.status === 'approved').length || 0`,
`percentage = total > 0 ? (approved / total) * 100 : 0`.  The optional
chaining (`recipients` may be missing) is the `Option`; JS number division on
these small natural counts is modelled exactly by rational arithmetic. -/
def getApprovalProgress (recipients : Option (List CardRecipient)) : Progress :=
  let total := match recipients with
    | none => 0
    | some l => l.length
  let approved := match recipients with
    | none => 0
    | some l => (l.filter (fun r => r.status == "approved")).length
  { approved := approved
    total := total
    percentage := if 0 < total then ((approved : ℚ) / (total : ℚ)) * 100 else 0 }

/-- C8: for every approval object — recipients present, empty, or missing —
`getApprovalProgress` returns `approved ≤ total` and a percentage within
`[0, 100]`, with percentage 0 when total is 0 (the division is guarded). -/
theorem approval_progress_bounds (recipients : Option (List CardRecipient)) :
    (getApprovalProgress recipients).approved ≤ (getApprovalProgress recipients).total ∧
    0 ≤ (getApprovalProgress recipients).percentage ∧
    (getApprovalProgress recipients).percentage ≤ 100 ∧
    ((getApprovalProgress recipients).total = 0 →
      (getApprovalProgress recipients).percentage = 0) := by
  obtain - | l := recipients
  · simp [getApprovalProgress]
  · simp only [getApprovalProgress]
    refine ⟨List.length_filter_le _ _, ?_, ?_, ?_⟩
    · split_ifs with h
      · positivity
      · exact le_refl 0
    · split_ifs with h
      · have hle : (((l.filter (fun r => r.status == "approved")).length : ℚ)) ≤
            (l.length : ℚ) := by
          exact_mod_cast List.length_filter_le _ _
        have htpos : (0 : ℚ) < (l.length : ℚ) := by exact_mod_cast h
        have hdiv : ((l.filter (fun r => r.status == "approved")).length : ℚ) /
            (l.length : ℚ) ≤ 1 := (div_le_one htpos).mpr hle
        calc ((l.filter (fun r => r.status == "approved")).length : ℚ) /
              (l.length : ℚ) * 100 ≤ 1 * 100 := by
              exact mul_le_mul_of_nonneg_right hdiv (by norm_num)
          _ = 100 := by norm_num
      · norm_num
    · intro h0
      simp [h0]

theorem approval_progress_bounds_witness :
    0 ≤ (getApprovalProgress (some [⟨"approved"⟩, ⟨"pending"⟩])).percentage :=
  (approval_progress_bounds (some [⟨"approved"⟩, ⟨"pending"⟩])).2.1

/-! ## Read-only listing operations (`frontend/src/hooks/useApprovals.js`) -/

/-- The full list-my-requests client operation: build the query parameters for
the given status filter, issue the GET (the `server` argument maps the query
to the server's response) and apply the 404 handling (useApprovals.js lines
9–35).  `σ` is any notion of mutable client state (e.g. the query cache); the
source's query function contains no write to it, so the operation returns the
state unchanged next to its result. -/
def listMineOp (σ : Type) (status : Option String)
    (server : List (String × String) → Except HttpError (List α)) :
    σ → σ × Except HttpError (List α) :=
  fun st => (st, getApprovalsHandle (server (getApprovalsParams status)))

/-- The for-me listing operation (useApprovals.js lines 224–236): GET
`/approvals/for-me` with the 404 handling; no client-state write. -/
def listForMeOp (σ : Type) (response : Except HttpError (List α)) :
    σ → σ × Except HttpError (List α) :=
  fun st => (st, forMeHandle response)

/-- `approvalsApi.getApprovalStats` (useApprovals.js lines 67–70): GET
`/approvals/dashboard/stats`, returning the response body unchanged; no
client-state write. -/
def statsOp (σ : Type) (response : Except HttpError β) : σ → σ × Except HttpError β :=
  fun st => (st, response)

/-- C7: the three query operations are read-only and idempotent: each leaves
any client state unchanged, and two calls — even from different client states
— over equal server responses return identical results. -/
theorem listing_read_only_idempotent {σ α β : Type} (st st' : σ) (status : Option String)
    (server server' : List (String × String) → Except HttpError (List α))
    (forMeResp forMeResp' : Except HttpError (List α))
    (statsResp statsResp' : Except HttpError β)
    (hs : server = server') (hf : forMeResp = forMeResp') (ht : statsResp = statsResp') :
    ((listMineOp σ status server st).1 = st ∧
     (listForMeOp σ forMeResp st).1 = st ∧
     (statsOp σ statsResp st).1 = st) ∧
    ((listMineOp σ status server st).2 = (listMineOp σ status server' st').2 ∧
     (listForMeOp σ forMeResp st).2 = (listForMeOp σ forMeResp' st').2 ∧
     (statsOp σ statsResp st).2 = (statsOp σ statsResp' st').2) := by
  subst hs
  subst hf
  subst ht
  exact ⟨⟨rfl, rfl, rfl⟩, ⟨rfl, rfl, rfl⟩⟩

theorem listing_read_only_idempotent_witness :
    (listMineOp (α := Unit) Nat none (fun _ => .ok []) 7).1 = 7 :=
  (listing_read_only_idempotent (α := Unit) (β := Unit) 7 8 none
    (fun _ => .ok []) (fun _ => .ok []) (.ok []) (.ok []) (.ok ()) (.ok ())
    rfl rfl rfl).1.1

/-! ## dateUtils (`frontend/src/utils/dateUtils.js`) -/

/-- JS `s.includes(c)` for a single character `c`. -/
def jsIncludesChar (s : String) (c : Char) : Bool :=
  s.data.contains c

/-- JS `s.includes(c, i)` for a single character: an occurrence at index `i`
or later (UTF-16 indices; code-point indices agree on the ASCII datetime
strings at issue). -/
def jsIncludesCharFrom (s : String) (c : Char) (i : Nat) : Bool :=
  (s.data.drop i).contains c

/-- The naive-datetime test of `parseDateTime` (dateUtils.js lines 15–18):
contains `'T'` but neither `'Z'` nor `'+'` nor a `'-'` at index 19 or later. -/
def isNaiveDatetime (s : String) : Bool :=
  jsIncludesChar s 'T' && !jsIncludesChar s 'Z' && !jsIncludesChar s '+' &&
    !jsIncludesCharFrom s '-' 19

/-- `parseDateTime` (dateUtils.js lines 9–28), represented by the string that
is handed to `new Date(...)`: `none` for a falsy input, otherwise the input
with `'Z'` appended when it is naive, else the input itself. -/
def parseDateTime (s : String) : Option String :=
  if s = "" then none
  else if isNaiveDatetime s then some (s ++ "Z") else some s

/-- `formatLocalDateTime` (dateUtils.js lines 35–56), parameterized by the JS
date parser `jsDate` (`new Date(str).getTime()` in milliseconds, `none` for an
invalid date) and the `Intl.DateTimeFormat` rendering `fmt`. -/
def formatLocalDateTime (jsDate : String → Option Int) (fmt : Int → String)
    (s : String) : String :=
  if s = "" then "Data non disponibile"
  else
    match parseDateTime s with
    | none => "Data non valida"
    | some t =>
      match jsDate t with
      | none => "Data non valida"
      | some ms => fmt ms

/-- `formatLocalDate` (dateUtils.js lines 116–135): same shape with a
date-only renderer. -/
def formatLocalDate (jsDate : String → Option Int) (fmt : Int → String)
    (s : String) : String :=
  if s = "" then "Data non disponibile"
  else
    match parseDateTime s with
    | none => "Data non valida"
    | some t =>
      match jsDate t with
      | none => "Data non valida"
      | some ms => fmt ms

/-- `formatLocalTime` (dateUtils.js lines 142–160): same shape with a
time-only renderer and its own fallback messages. -/
def formatLocalTime (jsDate : String → Option Int) (fmt : Int → String)
    (s : String) : String :=
  if s = "" then "Ora non disponibile"
  else
    match parseDateTime s with
    | none => "Ora non valida"
    | some t =>
      match jsDate t with
      | none => "Ora non valida"
      | some ms => fmt ms

/-- `getRelativeTime` (dateUtils.js lines 63–109): relative Italian phrasing
of `now - date`, falling back to `formatLocalDateTime` beyond 30 days.
`Int.fdiv` models `Math.floor` of the JS divisions. -/
def getRelativeTime (jsDate : String → Option Int) (fmt : Int → String)
    (now : Int) (s : String) : String :=
  if s = "" then "Data non disponibile"
  else
    match parseDateTime s with
    | none => "Data non valida"
    | some t =>
      match jsDate t with
      | none => "Data non valida"
      | some ms =>
        let diffMs := now - ms
        let diffSeconds := Int.fdiv diffMs 1000
        let diffMinutes := Int.fdiv diffMs (1000 * 60)
        let diffHours := Int.fdiv diffMs (1000 * 60 * 60)
        let diffDays := Int.fdiv diffMs (1000 * 60 * 60 * 24)
        if diffMs < 0 then "In futuro"
        else if diffSeconds < 30 then "Ora"
        else if diffMinutes < 1 then "Meno di un minuto fa"
        else if diffMinutes < 60 then
          toString diffMinutes ++ " " ++
            (if diffMinutes = 1 then "minuto" else "minuti") ++ " fa"
        else if diffHours < 24 then
          toString diffHours ++ " " ++
            (if diffHours = 1 then "ora" else "ore") ++ " fa"
        else if diffDays < 30 then
          toString diffDays ++ " " ++
            (if diffDays = 1 then "giorno" else "giorni") ++ " fa"
        else formatLocalDateTime jsDate fmt s

/-- `getExpiryUrgency` (dateUtils.js lines 167–187): hours until expiry as an
exact rational, classified into expired/urgent/warning/normal. -/
def getExpiryUrgency (jsDate : String → Option Int) (now : Int) (s : String) :
    Option String :=
  if s = "" then none
  else
    match parseDateTime s with
    | none => none
    | some t =>
      match jsDate t with
      | none => none
      | some ms =>
        let hoursUntilExpiry : ℚ := ((ms - now : Int) : ℚ) / (1000 * 60 * 60)
        if hoursUntilExpiry < 0 then some "expired"
        else if hoursUntilExpiry < 24 then some "urgent"
        else if hoursUntilExpiry < 72 then some "warning"
        else some "normal"

/-- `toUnixTimestamp` (dateUtils.js lines 194–204): `date ?
Math.floor(date.getTime()/1000) : null`.  The result distinguishes JS `null`
(outer `none`) from `NaN` (inner `none`, reached on an invalid but truthy
Date, whose time is NaN). -/
def toUnixTimestamp (jsDate : String → Option Int) (s : String) :
    Option (Option Int) :=
  if s = "" then none
  else
    match parseDateTime s with
    | none => none
    | some t =>
      match jsDate t with
      | none => some none
      | some ms => some (some (Int.fdiv ms 1000))

/-- `isFuture` (dateUtils.js lines 230–244): `date > new Date()` after the
validity guards. -/
def isFuture (jsDate : String → Option Int) (now : Int) (s : String) : Bool :=
  if s = "" then false
  else
    match parseDateTime s with
    | none => false
    | some t =>
      match jsDate t with
      | none => false
      | some ms => now < ms

/-- `isPast` (dateUtils.js lines 251–265): `date < new Date()` after the
validity guards. -/
def isPast (jsDate : String → Option Int) (now : Int) (s : String) : Bool :=
  if s = "" then false
  else
    match parseDateTime s with
    | none => false
    | some t =>
      match jsDate t with
      | none => false
      | some ms => ms < now

/-- C10: a datetime string containing `'T'` but no timezone marker is
interpreted as UTC by appending `'Z'`, and therefore every exported formatter
produces the same output on a naive string `s` and on `s ++ "Z"`. -/
theorem naive_datetime_utc_agreement (s : String) (h : isNaiveDatetime s = true) :
    parseDateTime s = some (s ++ "Z") ∧
    parseDateTime (s ++ "Z") = some (s ++ "Z") ∧
    ∀ (jsDate : String → Option Int) (fmt : Int → String) (now : Int),
      formatLocalDateTime jsDate fmt s = formatLocalDateTime jsDate fmt (s ++ "Z") ∧
      getRelativeTime jsDate fmt now s = getRelativeTime jsDate fmt now (s ++ "Z") ∧
      formatLocalDate jsDate fmt s = formatLocalDate jsDate fmt (s ++ "Z") ∧
      formatLocalTime jsDate fmt s = formatLocalTime jsDate fmt (s ++ "Z") ∧
      getExpiryUrgency jsDate now s = getExpiryUrgency jsDate now (s ++ "Z") ∧
      toUnixTimestamp jsDate s = toUnixTimestamp jsDate (s ++ "Z") ∧
      isFuture jsDate now s = isFuture jsDate now (s ++ "Z") ∧
      isPast jsDate now s = isPast jsDate now (s ++ "Z") := by
  have hT : jsIncludesChar s 'T' = true := by
    have h' := h
    simp only [isNaiveDatetime, Bool.and_eq_true] at h'
    exact h'.1.1.1
  have hs_ne : s ≠ "" := by
    intro he
    subst he
    simp [jsIncludesChar] at hT
  have hZ_ne : s ++ "Z" ≠ "" := by
    intro he
    have hd := congrArg String.data he
    simp [String.data_append] at hd
  have hZmem : jsIncludesChar (s ++ "Z") 'Z' = true := by
    simp [jsIncludesChar, String.data_append]
  have hnaiveZ : isNaiveDatetime (s ++ "Z") = false := by
    simp [isNaiveDatetime, hZmem]
  have hparse : parseDateTime s = some (s ++ "Z") := by
    simp [parseDateTime, hs_ne, h]
  have hparseZ : parseDateTime (s ++ "Z") = some (s ++ "Z") := by
    simp [parseDateTime, hZ_ne, hnaiveZ]
  refine ⟨hparse, hparseZ, fun jsDate fmt now => ?_⟩
  have hfdt : formatLocalDateTime jsDate fmt s = formatLocalDateTime jsDate fmt (s ++ "Z") := by
    simp only [formatLocalDateTime, hparse, hparseZ, if_neg hs_ne, if_neg hZ_ne]
  refine ⟨hfdt, ?_, ?_, ?_, ?_, ?_, ?_, ?_⟩
  · simp only [getRelativeTime, hparse, hparseZ, if_neg hs_ne, if_neg hZ_ne, hfdt]
  · simp only [formatLocalDate, hparse, hparseZ, if_neg hs_ne, if_neg hZ_ne]
  · simp only [formatLocalTime, hparse, hparseZ, if_neg hs_ne, if_neg hZ_ne]
  · simp only [getExpiryUrgency, hparse, hparseZ, if_neg hs_ne, if_neg hZ_ne]
  · simp only [toUnixTimestamp, hparse, hparseZ, if_neg hs_ne, if_neg hZ_ne]
  · simp only [isFuture, hparse, hparseZ, if_neg hs_ne, if_neg hZ_ne]
  · simp only [isPast, hparse, hparseZ, if_neg hs_ne, if_neg hZ_ne]

theorem naive_datetime_utc_agreement_witness :
    parseDateTime "2024-01-15T10:30:00" = some "2024-01-15T10:30:00Z" := by
  have h := (naive_datetime_utc_agreement "2024-01-15T10:30:00" (by decide)).1
  simpa using h

/-! ## Approval dashboard combine and filter
(`frontend/src/pages/ApprovalDashboard.jsx`, second component: `allData`
lines 298–348, `filterCounts` lines 351–373) -/

/-- A recipient entry as the dashboard reads it. -/
structure DashRecipient where
  recipient_email : String
  status : String
  deriving DecidableEq, Repr

/-- A request as the dashboard reads it; `recipients` is optional
(`item.recipients?.find`). -/
structure DashRequest where
  id : Nat
  status : String
  recipients : Option (List DashRecipient)
  deriving DecidableEq, Repr

/-- The `__type` tag the dashboard attaches (`'created' | 'recipient'`). -/
inductive SourceTag
  | created
  | recipient
  deriving DecidableEq, Repr

/-- A request with its `__type` tag. -/
structure TaggedRequest where
  req : DashRequest
  tag : SourceTag
  deriving DecidableEq, Repr

/-- JS `Map.get`. -/
def mapGet (m : List (Nat × α)) (k : Nat) : Option α :=
  match m with
  | [] => none
  | p :: rest => if p.1 == k then some p.2 else mapGet rest k

/-- JS `Map.set`: replace the value in place when the key exists, append a new
entry otherwise (JS Maps preserve insertion order). -/
def mapSet (m : List (Nat × α)) (k : Nat) (v : α) : List (Nat × α) :=
  match m with
  | [] => [(k, v)]
  | p :: rest => if p.1 == k then (p.1, v) :: rest else p :: mapSet rest k v

/-- One iteration of the `allData` dedup loop (ApprovalDashboard.jsx lines
319–325): insert when absent, replace only a `'recipient'` entry by a
`'created'` one. -/
def allDataDedupStep (m : List (Nat × TaggedRequest)) (item : TaggedRequest) :
    List (Nat × TaggedRequest) :=
  match mapGet m item.req.id with
  | none => mapSet m item.req.id item
  | some existing =>
    if existing.tag = .recipient ∧ item.tag = .created then mapSet m item.req.id item
    else m

/-- `Array.from(uniqueMap.values())` after the `allData` dedup loop. -/
def allDataDedup (l : List TaggedRequest) : List TaggedRequest :=
  (l.foldl allDataDedupStep []).map (·.2)

/-- One iteration of the `filterCounts` dedup loop (lines 353–357):
first-wins insertion. -/
def firstWinsStep (m : List (Nat × DashRequest)) (item : DashRequest) :
    List (Nat × DashRequest) :=
  if (mapGet m item.id).isSome then m else mapSet m item.id item

/-- `Array.from(allUnique.values())` after the `filterCounts` dedup loop. -/
def firstWinsDedup (l : List DashRequest) : List DashRequest :=
  (l.foldl firstWinsStep []).map (·.2)

/-- `item.recipients?.find(r => r.recipient_email === user?.email)`: strict
equality against `undefined` never holds, so a missing user email finds
nothing. -/
def findMyRecipient (email : Option String) (item : DashRequest) :
    Option DashRecipient :=
  match item.recipients with
  | none => none
  | some rs =>
    match email with
    | none => none
    | some e => rs.find? (fun r => r.recipient_email == e)

/-- `myRecipient?.status === 'pending' && item.status === 'pending'`
(lines 339–341 and 360–363). -/
def myPendingFilter (email : Option String) (item : DashRequest) : Bool :=
  (match findMyRecipient email item with
   | none => false
   | some r => r.status == "pending") && item.status == "pending"

/-- Tag a fetched list with its `__type`. -/
def tagWith (t : SourceTag) (l : List DashRequest) : List TaggedRequest :=
  l.map (fun r => ⟨r, t⟩)

/-- The dashboard's six filter keys. -/
inductive FilterKey
  | all
  | pending
  | approved
  | rejected
  | myPending
  | created
  deriving DecidableEq, Repr

/-- `allData` (ApprovalDashboard.jsx lines 298–348): combine the tagged
`myRequests` and `requestsForMe`, dedup with created-preference, then apply
the active filter. -/
def allData (email : Option String) (myRequests forMe : List DashRequest) :
    FilterKey → List TaggedRequest := fun key =>
  let myRequestsWithType := tagWith .created myRequests
  let forMeWithType := tagWith .recipient forMe
  let uniqueData := allDataDedup (myRequestsWithType ++ forMeWithType)
  match key with
  | .pending => uniqueData.filter (fun i => i.req.status == "pending")
  | .approved => uniqueData.filter (fun i => i.req.status == "approved")
  | .rejected => uniqueData.filter (fun i => i.req.status == "rejected")
  | .myPending => tagWith .recipient (forMe.filter (myPendingFilter email))
  | .created => myRequestsWithType
  | .all => uniqueData

/-- The badge counts (lines 365–372). -/
structure FilterCounts where
  all : Nat
  pending : Nat
  approved : Nat
  rejected : Nat
  myPending : Nat
  created : Nat
  deriving DecidableEq, Repr

/-- `filterCounts` (ApprovalDashboard.jsx lines 351–373): first-wins dedup of
the two lists, per-status counts, the my-pending count over `requestsForMe`,
and the created count. -/
def filterCounts (email : Option String) (myRequests forMe : List DashRequest) :
    FilterCounts :=
  let unique := firstWinsDedup (myRequests ++ forMe)
  { all := unique.length
    pending := (unique.filter (fun i => i.status == "pending")).length
    approved := (unique.filter (fun i => i.status == "approved")).length
    rejected := (unique.filter (fun i => i.status == "rejected")).length
    myPending := (forMe.filter (myPendingFilter email)).length
    created := myRequests.length }

theorem mapGet_map (f : α → β) (m : List (Nat × α)) (k : Nat) :
    mapGet (m.map (fun p => (p.1, f p.2))) k = (mapGet m k).map f := by
  induction m with
  | nil => rfl
  | cons p rest ih =>
    by_cases hk : (p.1 == k) = true
    · simp [mapGet, hk]
    · rw [Bool.not_eq_true] at hk
      simp [mapGet, hk, ih]

theorem mapSet_map (f : α → β) (m : List (Nat × α)) (k : Nat) (v : α) :
    (mapSet m k v).map (fun p => (p.1, f p.2)) =
      mapSet (m.map (fun p => (p.1, f p.2))) k (f v) := by
  induction m with
  | nil => rfl
  | cons p rest ih =>
    by_cases hk : (p.1 == k) = true
    · simp [mapSet, hk]
    · rw [Bool.not_eq_true] at hk
      simp [mapSet, hk, ih]

theorem mapGet_mem {m : List (Nat × α)} {k : Nat} {v : α}
    (h : mapGet m k = some v) : (k, v) ∈ m := by
  induction m with
  | nil => simp [mapGet] at h
  | cons p rest ih =>
    by_cases hk : (p.1 == k) = true
    · simp only [mapGet, hk, if_true, Option.some.injEq] at h
      subst h
      have hp : (k, p.2) = p := by
        have hpk : p.1 = k := by simpa using hk
        cases p
        simp_all
      rw [hp]
      exact List.mem_cons_self _ _
    · rw [Bool.not_eq_true] at hk
      simp only [mapGet, hk, Bool.false_eq_true, if_false] at h
      exact List.mem_cons_of_mem _ (ih h)

theorem mem_mapSet {m : List (Nat × α)} {k : Nat} {v : α} {p : Nat × α}
    (h : p ∈ mapSet m k v) : p ∈ m ∨ p = (k, v) := by
  induction m with
  | nil => simpa [mapSet] using h
  | cons q rest ih =>
    by_cases hk : (q.1 == k) = true
    · simp only [mapSet, hk, if_true, List.mem_cons] at h
      rcases h with h | h
      · right
        have : q.1 = k := by simpa using hk
        simp [h, this]
      · exact Or.inl (List.mem_cons_of_mem _ h)
    · rw [Bool.not_eq_true] at hk
      simp only [mapSet, hk, Bool.false_eq_true, if_false, List.mem_cons] at h
      rcases h with h | h
      · exact Or.inl (by simp [h])
      · rcases ih h with h | h
        · exact Or.inl (List.mem_cons_of_mem _ h)
        · exact Or.inr h

theorem tagWith_nil (t : SourceTag) : tagWith t [] = [] := rfl

theorem tagWith_cons (t : SourceTag) (a : DashRequest) (l : List DashRequest) :
    tagWith t (a :: l) = ⟨a, t⟩ :: tagWith t l := rfl

theorem allDataDedupStep_recipient (m : List (Nat × TaggedRequest)) (item : TaggedRequest)
    (hitem : item.tag = .recipient) :
    (allDataDedupStep m item).map (fun p => (p.1, p.2.req)) =
      firstWinsStep (m.map (fun p => (p.1, p.2.req))) item.req := by
  cases hmg : mapGet m item.req.id with
  | none =>
    have hget : mapGet (m.map (fun p => (p.1, p.2.req))) item.req.id = none := by
      rw [mapGet_map, hmg]
      rfl
    simp only [allDataDedupStep, hmg, firstWinsStep, hget, Option.isSome_none,
      Bool.false_eq_true, if_false]
    exact mapSet_map (fun t => t.req) m item.req.id item
  | some ex =>
    have hget : mapGet (m.map (fun p => (p.1, p.2.req))) item.req.id = some ex.req := by
      rw [mapGet_map, hmg]
      rfl
    have hcond : ¬(ex.tag = SourceTag.recipient ∧ item.tag = SourceTag.created) := by
      rintro ⟨-, hc⟩
      rw [hitem] at hc
      exact SourceTag.noConfusion hc
    simp [allDataDedupStep, hmg, hcond, firstWinsStep, hget]

theorem allDataDedupStep_created (m : List (Nat × TaggedRequest)) (item : TaggedRequest)
    (hitem : item.tag = .created) (hinv : ∀ p ∈ m, p.2.tag = .created) :
    (allDataDedupStep m item).map (fun p => (p.1, p.2.req)) =
      firstWinsStep (m.map (fun p => (p.1, p.2.req))) item.req ∧
    ∀ p ∈ allDataDedupStep m item, p.2.tag = .created := by
  cases hmg : mapGet m item.req.id with
  | none =>
    have hget : mapGet (m.map (fun p => (p.1, p.2.req))) item.req.id = none := by
      rw [mapGet_map, hmg]
      rfl
    constructor
    · simp only [allDataDedupStep, hmg, firstWinsStep, hget, Option.isSome_none,
        Bool.false_eq_true, if_false]
      exact mapSet_map (fun t => t.req) m item.req.id item
    · intro p hp
      simp only [allDataDedupStep, hmg] at hp
      rcases mem_mapSet hp with h | h
      · exact hinv p h
      · subst h
        exact hitem
  | some ex =>
    have hex : ex.tag = .created := hinv _ (mapGet_mem hmg)
    have hget : mapGet (m.map (fun p => (p.1, p.2.req))) item.req.id = some ex.req := by
      rw [mapGet_map, hmg]
      rfl
    have hcond : ¬(ex.tag = SourceTag.recipient ∧ item.tag = SourceTag.created) := by
      rintro ⟨hc, -⟩
      rw [hex] at hc
      exact SourceTag.noConfusion hc
    constructor
    · simp [allDataDedupStep, hmg, hcond, firstWinsStep, hget]
    · intro p hp
      simp only [allDataDedupStep, hmg, if_neg hcond] at hp
      exact hinv p hp

theorem fold_created_proj (A : List DashRequest) :
    ∀ (m : List (Nat × TaggedRequest)), (∀ p ∈ m, p.2.tag = .created) →
      ((tagWith .created A).foldl allDataDedupStep m).map (fun p => (p.1, p.2.req)) =
        A.foldl firstWinsStep (m.map (fun p => (p.1, p.2.req))) ∧
      ∀ p ∈ (tagWith .created A).foldl allDataDedupStep m, p.2.tag = .created := by
  induction A with
  | nil =>
    intro m hm
    exact ⟨rfl, hm⟩
  | cons a A ih =>
    intro m hm
    have hstep := allDataDedupStep_created m ⟨a, .created⟩ rfl hm
    have hih := ih (allDataDedupStep m ⟨a, .created⟩) hstep.2
    constructor
    · rw [tagWith_cons, List.foldl_cons, List.foldl_cons, hih.1, hstep.1]
    · rw [tagWith_cons, List.foldl_cons]
      exact hih.2

theorem fold_recipient_proj (B : List DashRequest) :
    ∀ (m : List (Nat × TaggedRequest)),
      ((tagWith .recipient B).foldl allDataDedupStep m).map (fun p => (p.1, p.2.req)) =
        B.foldl firstWinsStep (m.map (fun p => (p.1, p.2.req))) := by
  induction B with
  | nil =>
    intro m
    rfl
  | cons b B ih =>
    intro m
    rw [tagWith_cons, List.foldl_cons, List.foldl_cons, ih,
      allDataDedupStep_recipient m ⟨b, .recipient⟩ rfl]

theorem allDataDedup_eq_firstWins (A B : List DashRequest) :
    (allDataDedup (tagWith .created A ++ tagWith .recipient B)).map (·.req) =
      firstWinsDedup (A ++ B) := by
  have h1 := fold_created_proj A [] (by intro p hp; exact absurd hp (List.not_mem_nil p))
  have hfold : ((tagWith .created A ++ tagWith .recipient B).foldl allDataDedupStep []).map
      (fun p => (p.1, p.2.req)) = (A ++ B).foldl firstWinsStep [] := by
    rw [List.foldl_append, List.foldl_append,
      fold_recipient_proj B ((tagWith .created A).foldl allDataDedupStep []), h1.1]
    rfl
  have hswap : ∀ (L : List (Nat × TaggedRequest)),
      (L.map (·.2)).map (·.req) = (L.map (fun p => (p.1, p.2.req))).map (·.2) := by
    intro L
    simp [List.map_map]
  unfold allDataDedup firstWinsDedup
  rw [hswap, hfold]

theorem mapGet_none_iff (m : List (Nat × α)) (k : Nat) :
    mapGet m k = none ↔ k ∉ m.map (·.1) := by
  induction m with
  | nil => simp [mapGet]
  | cons p rest ih =>
    by_cases hk : (p.1 == k) = true
    · have hpk : p.1 = k := by simpa using hk
      simp [mapGet, hk, hpk]
    · rw [Bool.not_eq_true] at hk
      have hne : p.1 ≠ k := by simpa using hk
      simp [mapGet, hk, ih, hne, Ne.symm hne]

theorem mapGet_isSome_mem_keys {m : List (Nat × α)} {k : Nat}
    (h : (mapGet m k).isSome = true) : k ∈ m.map (·.1) := by
  cases hmg : mapGet m k with
  | none =>
    rw [hmg] at h
    simp at h
  | some v =>
    have hm := mapGet_mem hmg
    exact List.mem_map_of_mem (·.1) hm

theorem mapSet_of_not_mem {m : List (Nat × α)} {k : Nat} (v : α)
    (h : k ∉ m.map (·.1)) : mapSet m k v = m ++ [(k, v)] := by
  induction m with
  | nil => rfl
  | cons p rest ih =>
    have hne : p.1 ≠ k := by
      intro he
      exact h (by simp [he])
    have hk : (p.1 == k) = false := by simpa using hne
    simp only [mapSet, hk, Bool.false_eq_true, if_false, List.cons_append]
    rw [ih (fun hm => h (List.mem_cons_of_mem _ hm))]

/-- Invariant of the first-wins store: each value carries its key as id, and
the keys are duplicate-free. -/
def WfStore (m : List (Nat × DashRequest)) : Prop :=
  (∀ p ∈ m, p.2.id = p.1) ∧ (m.map (·.1)).Nodup

theorem firstWinsStep_wf {m : List (Nat × DashRequest)} (hw : WfStore m)
    (item : DashRequest) :
    WfStore (firstWinsStep m item) ∧
    ∀ k, k ∈ (firstWinsStep m item).map (·.1) ↔ k ∈ m.map (·.1) ∨ k = item.id := by
  cases hb : (mapGet m item.id).isSome with
  | true =>
    have hstep : firstWinsStep m item = m := by simp [firstWinsStep, hb]
    rw [hstep]
    refine ⟨hw, fun k => ⟨Or.inl, ?_⟩⟩
    rintro (h | rfl)
    · exact h
    · exact mapGet_isSome_mem_keys hb
  | false =>
    have hnone : mapGet m item.id = none := by
      cases hmg : mapGet m item.id with
      | none => rfl
      | some v =>
        rw [hmg] at hb
        simp at hb
    have hnk : item.id ∉ m.map (·.1) := (mapGet_none_iff m item.id).mp hnone
    have hstep : firstWinsStep m item = m ++ [(item.id, item)] := by
      simp [firstWinsStep, hb, mapSet_of_not_mem item hnk]
    rw [hstep]
    constructor
    · constructor
      · intro p hp
        rcases List.mem_append.mp hp with h | h
        · exact hw.1 p h
        · simp only [List.mem_singleton] at h
          subst h
          rfl
      · rw [List.map_append]
        rw [List.nodup_append]
        exact ⟨hw.2, List.nodup_singleton _, by
          intro a ha hb'
          simp only [List.map_cons, List.map_nil, List.mem_singleton] at hb'
          subst hb'
          exact hnk ha⟩
    · intro k
      rw [List.map_append]
      simp [List.mem_append]

theorem firstWins_fold_wf (l : List DashRequest) :
    ∀ m, WfStore m →
      WfStore (l.foldl firstWinsStep m) ∧
      ∀ k, k ∈ (l.foldl firstWinsStep m).map (·.1) ↔
        k ∈ m.map (·.1) ∨ k ∈ l.map (·.id) := by
  induction l with
  | nil =>
    intro m hm
    exact ⟨hm, fun k => by simp⟩
  | cons a l ih =>
    intro m hm
    obtain ⟨hw1, hk1⟩ := firstWinsStep_wf hm a
    obtain ⟨hw2, hk2⟩ := ih _ hw1
    refine ⟨by simpa using hw2, fun k => ?_⟩
    simp only [List.foldl_cons, hk2 k, hk1 k, List.map_cons, List.mem_cons]
    tauto

theorem firstWinsDedup_ids (l : List DashRequest) :
    (firstWinsDedup l).map (·.id) = (l.foldl firstWinsStep []).map (·.1) := by
  obtain ⟨⟨hval, -⟩, -⟩ := firstWins_fold_wf l [] ⟨by simp, by simp⟩
  unfold firstWinsDedup
  rw [List.map_map]
  exact List.map_congr_left (fun p hp => hval p hp)

theorem firstWinsDedup_nodup_ids (l : List DashRequest) :
    ((firstWinsDedup l).map (·.id)).Nodup := by
  rw [firstWinsDedup_ids]
  exact (firstWins_fold_wf l [] ⟨by simp, by simp⟩).1.2

theorem firstWinsDedup_mem_ids (l : List DashRequest) (k : Nat) :
    k ∈ (firstWinsDedup l).map (·.id) ↔ k ∈ l.map (·.id) := by
  rw [firstWinsDedup_ids]
  have h := (firstWins_fold_wf l [] ⟨by simp, by simp⟩).2 k
  simpa using h

/-- C6: each dashboard filter's badge count equals the number of requests
displayed when that filter is active; the my-pending count is the number of
for-me requests whose recipient entry for the caller's email is pending while
the request is pending; and the total lists each distinct request id exactly
once across the two fetched lists. -/
theorem dashboard_filter_counts (email : Option String)
    (myRequests forMe : List DashRequest) :
    ((allData email myRequests forMe .all).length =
        (filterCounts email myRequests forMe).all ∧
      (allData email myRequests forMe .pending).length =
        (filterCounts email myRequests forMe).pending ∧
      (allData email myRequests forMe .approved).length =
        (filterCounts email myRequests forMe).approved ∧
      (allData email myRequests forMe .rejected).length =
        (filterCounts email myRequests forMe).rejected ∧
      (allData email myRequests forMe .myPending).length =
        (filterCounts email myRequests forMe).myPending ∧
      (allData email myRequests forMe .created).length =
        (filterCounts email myRequests forMe).created) ∧
    (filterCounts email myRequests forMe).myPending =
      (forMe.filter (myPendingFilter email)).length ∧
    ((allData email myRequests forMe .all).map (fun i => i.req.id)).Nodup ∧
    ∀ k, k ∈ (allData email myRequests forMe .all).map (fun i => i.req.id) ↔
      k ∈ (myRequests ++ forMe).map (·.id) := by
  have hmain := allDataDedup_eq_firstWins myRequests forMe
  have hAll : allData email myRequests forMe .all =
      allDataDedup (tagWith .created myRequests ++ tagWith .recipient forMe) := rfl
  have hcount : ∀ st : String,
      ((allDataDedup (tagWith .created myRequests ++ tagWith .recipient forMe)).filter
        (fun i => i.req.status == st)).length =
      ((firstWinsDedup (myRequests ++ forMe)).filter (fun r => r.status == st)).length := by
    intro st
    rw [← hmain, List.filter_map, List.length_map]
    rfl
  have hids : (allData email myRequests forMe .all).map (fun i => i.req.id) =
      (firstWinsDedup (myRequests ++ forMe)).map (·.id) := by
    rw [hAll]
    have hmm : (allDataDedup (tagWith .created myRequests ++
        tagWith .recipient forMe)).map (fun i => i.req.id) =
        ((allDataDedup (tagWith .created myRequests ++
          tagWith .recipient forMe)).map (·.req)).map (·.id) := by
      rw [List.map_map]
      rfl
    rw [hmm, hmain]
  refine ⟨⟨?_, hcount "pending", hcount "approved", hcount "rejected", ?_, ?_⟩,
    rfl, ?_, ?_⟩
  · rw [hAll]
    calc (allDataDedup (tagWith .created myRequests ++ tagWith .recipient forMe)).length
        = ((allDataDedup (tagWith .created myRequests ++
            tagWith .recipient forMe)).map (·.req)).length := (List.length_map _ _).symm
      _ = (firstWinsDedup (myRequests ++ forMe)).length := by rw [hmain]
  · simp [allData, filterCounts, tagWith]
  · simp [allData, filterCounts, tagWith]
  · rw [hids]
    exact firstWinsDedup_nodup_ids _
  · intro k
    rw [hids]
    exact firstWinsDedup_mem_ids _ k

theorem dashboard_filter_counts_witness :
    (allData none [] [] .all).length = (filterCounts none [] []).all :=
  (dashboard_filter_counts none [] []).1.1

end DMS
